import Mathlib

/-!
Shallow embedding of the statomata state-machine execution engine.

The embedding follows `src/statomata/executor.py` (ExecutorContext,
StateMachineExecutor), `src/statomata/unary.py` (UnaryStateMachine.run),
`src/statomata/transition.py` (Transition kinds, TransitionExecutor) and
`src/statomata/declarative/state.py` (MethodCallState.handle and its
transition kinds).

Python object identity on states (`is` / `is not`) is modelled by equality
on the state type `S`: every distinct state object is given a distinct
value of `S`, so identity and equality coincide.  Handlers interact with
the execution context only through the public `Context` mutators
(`set_state`, `defer`, `recall`, `abort`), which the `Context` ABC in
`src/statomata/abc.py` exposes (it has no getters); a handler is therefore
modelled as a function from (state, income) to the list of mutator calls
it performs plus its result (a normal outcome or a raised exception).
-/

namespace Statomata

/-- Execution context, mirroring `ExecutorContext.__init__` in executor.py. -/
structure ExecutorContext (S : Type) where
  source : S
  destination : Option S
  initial : Bool
  entered : Bool
  deferred : Bool
  recalled : Bool
  aborted : Bool
deriving Repr, DecidableEq

/-- Fresh context for an initial state, as built by `ExecutorContext.__init__`. -/
def ExecutorContext.init {S : Type} (state : S) : ExecutorContext S :=
  { source := state, destination := none, initial := true, entered := false,
    deferred := false, recalled := false, aborted := false }

/-- Mirrors `ExecutorContext.set_state` in executor.py (keyword `final` made positional). -/
def ExecutorContext.set_state {S : Type} (c : ExecutorContext S) (state : S) (final : Bool) :
    ExecutorContext S :=
  { c with destination := some state, recalled := false, aborted := final }

/-- Mirrors `ExecutorContext.defer` in executor.py. -/
def ExecutorContext.defer {S : Type} (c : ExecutorContext S) : ExecutorContext S :=
  { c with deferred := true }

/-- Mirrors `ExecutorContext.recall` in executor.py. -/
def ExecutorContext.recall {S : Type} (c : ExecutorContext S) : ExecutorContext S :=
  { c with recalled := true }

/-- Mirrors `ExecutorContext.abort` in executor.py. -/
def ExecutorContext.abort {S : Type} (c : ExecutorContext S) : ExecutorContext S :=
  { c with aborted := true }

/-- Mirrors the `can_transit` property: destination is set and is not the source. -/
def ExecutorContext.can_transit {S : Type} [DecidableEq S] (c : ExecutorContext S) : Bool :=
  match c.destination with
  | none => false
  | some d => decide (c.source ≠ d)

/-- Mirrors `ExecutorContext.transit`: returns `(source, new source?)` and the
updated context (swap source to destination, clear destination and entered). -/
def ExecutorContext.transit {S : Type} (c : ExecutorContext S) :
    (S × Option S) × ExecutorContext S :=
  match c.destination with
  | none => ((c.source, none), c)
  | some d => ((c.source, some d),
      { c with source := d, destination := none, entered := false })

/-- One call a handler can make on its `Context` during a handling turn. -/
inductive CtxAction (S : Type) where
  | set_state (state : S) (final : Bool)
  | defer
  | recall
  | abort
deriving Repr, DecidableEq

/-- Apply one context mutator call. -/
def applyAction {S : Type} (c : ExecutorContext S) : CtxAction S → ExecutorContext S
  | .set_state s f => c.set_state s f
  | .defer => c.defer
  | .recall => c.recall
  | .abort => c.abort

/-- Apply the sequence of mutator calls a handler performed, in order. -/
def applyActions {S : Type} (c : ExecutorContext S) : List (CtxAction S) → ExecutorContext S
  | [] => c
  | a :: rest => applyActions (applyAction c a) rest

/-- Subscriber notification, one constructor per `StateMachineSubscriber` method. -/
inductive Event (S U V E : Type) where
  | initial (state : S)
  | state_entered (state : S) (income : U)
  | income_deferred (state : S) (income : U)
  | income_recalled (state : S) (income : U)
  | state_outcome (state : S) (income : U) (outcome : V)
  | state_left (state : S) (income : U)
  | state_failed (state : S) (error : E)
  | transition (source : S) (destination : S)
  | final (state : S)
deriving Repr, DecidableEq

/-- Executor state, mirroring `StateMachineExecutor.__init__` in executor.py.
The subscriber is modelled by `hasSubscriber` plus the `events` log: notifications
fire only when a subscriber was supplied, and the log records them in order. -/
structure StateMachineExecutor (S U V E : Type) where
  context : ExecutorContext S
  fallback : Option (E → Option S)
  hasSubscriber : Bool
  pending : List U
  events : List (Event S U V E)

variable {S U V E : Type}

/-- Subscriber notification: appended to the log only when a subscriber exists
(the `if self.__subscriber is not None` guards in executor.py). -/
def StateMachineExecutor.notify (ex : StateMachineExecutor S U V E) (e : Event S U V E) :
    StateMachineExecutor S U V E :=
  if ex.hasSubscriber then { ex with events := ex.events ++ [e] } else ex

/-- Mirrors the `current_state` property. -/
def StateMachineExecutor.current_state (ex : StateMachineExecutor S U V E) : S :=
  ex.context.source

/-- Mirrors the `is_aborted` property. -/
def StateMachineExecutor.is_aborted (ex : StateMachineExecutor S U V E) : Bool :=
  ex.context.aborted

/-- Mirrors `StateMachineExecutor.enter_state`: raises `AbortedStateReachedError`
(the `.error` case, carrying the state and income) when already aborted; otherwise
fires `initial` and `state_entered` notifications as needed. -/
def StateMachineExecutor.enter_state (ex : StateMachineExecutor S U V E) (income : U) :
    Except (S × U) (StateMachineExecutor S U V E) :=
  if ex.is_aborted then .error (ex.current_state, income)
  else
    let ex1 :=
      if ex.context.initial then
        let exN := ex.notify (.initial ex.current_state)
        { exN with context := { exN.context with initial := false } }
      else ex
    let ex2 :=
      if ex1.context.entered = false then
        let exN := ex1.notify (.state_entered ex1.current_state income)
        { exN with context := { exN.context with entered := true } }
      else ex1
    .ok ex2

/-- Mirrors `StateMachineExecutor.handle_outcome`. -/
def StateMachineExecutor.handle_outcome (ex : StateMachineExecutor S U V E)
    (income : U) (outcome : V) : StateMachineExecutor S U V E :=
  ex.notify (.state_outcome ex.current_state income outcome)

/-- Mirrors `StateMachineExecutor.reset_state`: performs the pending transition
when possible, notifying `transition`; returns whether a transition happened. -/
def StateMachineExecutor.reset_state [DecidableEq S] (ex : StateMachineExecutor S U V E) :
    StateMachineExecutor S U V E × Bool :=
  if ex.context.can_transit = false then (ex, false)
  else
    let r := ex.context.transit
    let ex1 := { ex with context := r.2 }
    match r.1.2 with
    | some d => (ex1.notify (.transition r.1.1 d), true)
    | none => (ex1, false)

/-- Mirrors `StateMachineExecutor.leave_state`: deferred-income push, `state_left`
notification when a transition will occur, `reset_state`, and `final` notification
when aborted. -/
def StateMachineExecutor.leave_state [DecidableEq S] (ex : StateMachineExecutor S U V E)
    (income : U) : StateMachineExecutor S U V E :=
  let ex1 :=
    if ex.context.deferred then
      let exP := { ex with pending := ex.pending ++ [income] }
      let exN := exP.notify (.income_deferred exP.current_state income)
      { exN with context := { exN.context with deferred := false } }
    else ex
  let ex2 :=
    if ex1.context.can_transit then ex1.notify (.state_left ex1.current_state income) else ex1
  let ex3 := (ex2.reset_state).1
  if ex3.is_aborted then ex3.notify (.final ex3.current_state) else ex3

/-- Mirrors `StateMachineExecutor.handle_state_error`: notify `state_failed`,
consult the fallback resolver, and on a resolved destination perform
`set_state` plus `reset_state`.  Returns the updated executor and the boolean
the Python method returns. -/
def StateMachineExecutor.handle_state_error [DecidableEq S]
    (ex : StateMachineExecutor S U V E) (err : E) :
    StateMachineExecutor S U V E × Bool :=
  let ex1 := ex.notify (.state_failed ex.current_state err)
  match ex1.fallback with
  | none => (ex1, false)
  | some fb =>
    match fb err with
    | none => (ex1, false)
    | some dest =>
      let ex2 := { ex1 with context := ex1.context.set_state dest false }
      ex2.reset_state

/-- What one handler invocation does: the `Context` mutator calls it performs,
in order, and its result (a returned outcome or a raised exception). -/
structure HandlerSpec (S V E : Type) where
  actions : List (CtxAction S)
  result : Except E V

/-- A machine: the behaviour of the current state's `handle` method, per
(state, income).  Handlers cannot read the context (the `Context` ABC exposes
only mutators), so their behaviour depends only on state and income. -/
def Machine (S U V E : Type) : Type :=
  S → U → HandlerSpec S V E

/-- How a `run` call can terminate abnormally. -/
inductive RunErr (S U E : Type) where
  | aborted (state : S) (income : U)
  | raised (error : E)
  | fuel
deriving Repr, DecidableEq

/-- One `visit_state` block of `UnaryStateMachine.run`: enter the state, invoke
the handler, report the outcome via `handle_outcome`, then `leave_state`; on a
handler exception run `handle_state_error` and re-raise (the unconditional
`raise` in `StateMachineExecutor.visit_state`).  Also returns the trace of
handler invocations: the executor snapshot at invocation time and the income. -/
def unary_visit [DecidableEq S] (M : Machine S U V E)
    (ex : StateMachineExecutor S U V E) (income : U) :
    Except (RunErr S U E) V × StateMachineExecutor S U V E ×
      List (StateMachineExecutor S U V E × U) :=
  match ex.enter_state income with
  | .error si => (.error (.aborted si.1 si.2), ex, [])
  | .ok ex1 =>
    let spec := M ex1.current_state income
    let ex2 := { ex1 with context := applyActions ex1.context spec.actions }
    match spec.result with
    | .error e => (.error (.raised e), (ex2.handle_state_error e).1, [(ex1, income)])
    | .ok v =>
      let ex3 := ex2.handle_outcome income v
      (.ok v, ex3.leave_state income, [(ex1, income)])

/-- The statements of `StateMachineExecutor.recall` that run before each replay
visit: pop the income from the tail of the pending queue (`deque.pop`), notify
`income_recalled`, and clear the recalled flag. -/
def recall_pop (ex : StateMachineExecutor S U V E) (income : U) :
    StateMachineExecutor S U V E :=
  let exA := { ex with pending := ex.pending.dropLast }
  let exB := exA.notify (.income_recalled exA.current_state income)
  { exB with context := { exB.context with recalled := false } }

/-- The `for recalled, context in self.__executor.recall()` loop of
`UnaryStateMachine.run`: while not aborted, `recalled` is set and the pending
queue is non-empty, pop from the tail (`deque.pop`), notify `income_recalled`,
clear the recalled flag and run a full visit; the loop variable `outcome` is
reassigned on every iteration.  `fuel` bounds the number of iterations, since
the Python loop need not terminate; running out of fuel while the loop would
continue yields the distinguished `RunErr.fuel`. -/
def unary_recall_loop [DecidableEq S] (M : Machine S U V E) :
    Nat → StateMachineExecutor S U V E → V → List (StateMachineExecutor S U V E × U) →
    Except (RunErr S U E) V × StateMachineExecutor S U V E ×
      List (StateMachineExecutor S U V E × U)
  | 0, ex, out, tr =>
    if !ex.is_aborted && ex.context.recalled && !ex.pending.isEmpty
    then (.error .fuel, ex, tr)
    else (.ok out, ex, tr)
  | fuel + 1, ex, out, tr =>
    if !ex.is_aborted && ex.context.recalled && !ex.pending.isEmpty then
      match ex.pending.getLast? with
      | none => (.ok out, ex, tr)
      | some income =>
        match unary_visit M (recall_pop ex income) income with
        | (.error err, ex1, es) => (.error err, ex1, tr ++ es)
        | (.ok v, ex1, es) => unary_recall_loop M fuel ex1 v (tr ++ es)
    else (.ok out, ex, tr)

/-- `UnaryStateMachine.run` (unary.py): one visit for the triggering income,
then the recall loop; returns the value of the (reassigned) `outcome` variable.
The instance lock is not modelled: the engine assumes single-threaded access
during a run. -/
def unary_run [DecidableEq S] (M : Machine S U V E) (fuel : Nat)
    (ex : StateMachineExecutor S U V E) (income : U) :
    Except (RunErr S U E) V × StateMachineExecutor S U V E ×
      List (StateMachineExecutor S U V E × U) :=
  match unary_visit M ex income with
  | (.error err, ex1, tr) => (.error err, ex1, tr)
  | (.ok v, ex1, tr) => unary_recall_loop M fuel ex1 v tr

/-- Transition kinds of transition.py: `ConstantTransition`,
`ConditionalTransition` and `MappingTransition`.  A Python `Mapping` with its
`.get` lookup is modelled as a function into `Option`. -/
inductive STransition (K U S : Type) where
  | constant (destination : S)
  | conditional (condition : U → Bool) (thenDest : S) (otherwise : Option S)
  | mapping (key : U → K) (destinations : K → Option S) (default : Option S)

/-- The `perform` methods of the three transition kinds in transition.py:
each optionally calls `context.set_state` and reports whether it applied. -/
def STransition.perform {K : Type} (t : STransition K U S) (income : U)
    (c : ExecutorContext S) : Bool × ExecutorContext S :=
  match t with
  | .constant d => (true, c.set_state d false)
  | .conditional cond th el =>
    if cond income then (true, c.set_state th false)
    else
      match el with
      | some o => (true, c.set_state o false)
      | none => (false, c)
  | .mapping key dests dflt =>
    match dests (key income) with
    | some d => (true, c.set_state d false)
    | none =>
      match dflt with
      | some d => (true, c.set_state d false)
      | none => (false, c)

/-- The transition-list scan of `TransitionExecutor.execute` in transition.py:
evaluate in declaration order, return the first transition whose `perform`
returns true, or `none`. -/
def executeTransitions {K : Type} :
    List (STransition K U S) → U → ExecutorContext S →
    Option (STransition K U S) × ExecutorContext S
  | [], _, c => (none, c)
  | t :: ts, income, c =>
    match t.perform income c with
    | (true, c1) => (some t, c1)
    | (false, c1) => executeTransitions ts income c1

/-- Modelled from the spec: the condition under which each transition kind is
said to apply ("Constant always returns true; Conditional returns true if its
predicate holds, or if it has an `otherwise` destination; KeyMapped returns
true if the computed key maps to a destination or a default exists").  Stated
separately from `STransition.perform` so the source behaviour can be compared
against the spec's wording. -/
def STransition.firesSpec {K : Type} (t : STransition K U S) (income : U) : Bool :=
  match t with
  | .constant _ => true
  | .conditional cond _ el => cond income || el.isSome
  | .mapping key dests dflt => (dests (key income)).isSome || dflt.isSome

/-- Transition kinds of declarative/state.py: `ConstantMethodCallTransition`,
`ConditionalMethodCallTransition`, `KeyMappingMethodCallTransition`.  They are
evaluated against the state-machine container `T` and set the destination with
`final=destination.final`; the destination's `final` attribute is supplied by
`finalOf`. -/
inductive MCTransition (K T S : Type) where
  | constant (destination : S)
  | conditional (condition : T → Bool) (thenDest : S) (otherwise : Option S)
  | keyMapping (key : T → K) (destinations : K → Option S) (default : Option S)

/-- The `perform` methods of the method-call transition kinds in
declarative/state.py. -/
def MCTransition.perform {K T : Type} (finalOf : S → Bool) (t : MCTransition K T S)
    (container : T) (c : ExecutorContext S) : Bool × ExecutorContext S :=
  match t with
  | .constant d => (true, c.set_state d (finalOf d))
  | .conditional cond th el =>
    if cond container then (true, c.set_state th (finalOf th))
    else
      match el with
      | some o => (true, c.set_state o (finalOf o))
      | none => (false, c)
  | .keyMapping key dests dflt =>
    match dests (key container) with
    | some d => (true, c.set_state d (finalOf d))
    | none =>
      match dflt with
      | some d => (true, c.set_state d (finalOf d))
      | none => (false, c)

/-- The transition loop at the end of `MethodCallState.handle` in
declarative/state.py: perform transitions in order and `break` at the first
one that returns true. -/
def methodCallTransit {K T : Type} (finalOf : S → Bool) :
    List (MCTransition K T S) → T → ExecutorContext S → ExecutorContext S
  | [], _, c => c
  | t :: ts, container, c =>
    match t.perform finalOf container c with
    | (true, c1) => c1
    | (false, c1) => methodCallTransit finalOf ts container c1

/-- Modelled from the spec, for the method-call transition kinds: the claimed
condition under which each kind applies. -/
def MCTransition.firesSpec {K T : Type} (t : MCTransition K T S) (container : T) : Bool :=
  match t with
  | .constant _ => true
  | .conditional cond _ el => cond container || el.isSome
  | .keyMapping key dests dflt => (dests (key container)).isSome || dflt.isSome

/-- The public attribute names the class body of `StateMachineExecutor` in
executor.py defines (methods and properties, name-mangled private fields
excluded). -/
def executorAttributeNames : List String :=
  ["current_state", "is_aborted", "process", "recall", "visit_state",
   "enter_state", "handle_outcome", "leave_state", "handle_state_error",
   "reset_state"]

/-- The attribute names `IterableStateMachine` in iterable.py reads off its
executor (in `current_state` and in the body of `run`). -/
def iterableRunExecutorAttributeNames : List String :=
  ["state", "start_state", "handle_outcome", "handle_state_error",
   "finish_state", "is_finished"]

/-! Concrete instances used to evaluate the model on explicit inputs.  States,
incomes and outcomes are numbered; the only exception value is `()`. -/

/-- A machine whose every handler raises; states and incomes are numbers. -/
def raiseMachine : Machine Nat Nat Nat Unit := fun _ _ => ⟨[], .error ()⟩

/-- A fallback resolver mapping every exception to state 1. -/
def fbResolver : Unit → Option Nat := fun _ => some 1

/-- Executor in state 0 with the `fbResolver` fallback and a subscriber. -/
def exFallback : StateMachineExecutor Nat Nat Nat Unit :=
  { context := ExecutorContext.init 0, fallback := some fbResolver,
    hasSubscriber := true, pending := [], events := [] }

/-- A machine whose state-0 handler transitions to state 1 and requests a
recall, returning outcome 10; the state-1 handler returns 20. -/
def recallMachine : Machine Nat Nat Nat Unit := fun s _ =>
  if s = 0 then ⟨[CtxAction.set_state 1 false, CtxAction.recall], .ok 10⟩
  else ⟨[], .ok 20⟩

/-- Executor in state 0 with one pending (previously deferred) income 5. -/
def exRecall : StateMachineExecutor Nat Nat Nat Unit :=
  { context := ExecutorContext.init 0, fallback := none,
    hasSubscriber := true, pending := [5], events := [] }

/-- An already-aborted executor. -/
def exAborted : StateMachineExecutor Nat Nat Nat Unit :=
  { context := { ExecutorContext.init 0 with aborted := true }, fallback := none,
    hasSubscriber := true, pending := [], events := [] }

/-- A machine that echoes the income and performs no context calls. -/
def constMachine : Machine Nat Nat Nat Unit := fun _ u => ⟨[], .ok u⟩

/-- Executor whose context has `recalled` set and two pending incomes. -/
def exRecallPending : StateMachineExecutor Nat Nat Nat Unit :=
  { context := { ExecutorContext.init 0 with recalled := true }, fallback := none,
    hasSubscriber := true, pending := [3, 4], events := [] }

/-- Executor whose context holds a pending destination 1 and a deferred flag. -/
def exLeaveGo : StateMachineExecutor Nat Nat Nat Unit :=
  { context := { ExecutorContext.init 0 with destination := some 1, deferred := true },
    fallback := none, hasSubscriber := true, pending := [], events := [] }

/-! Basic lemmas: field preservation and event-log monotonicity. -/

theorem applyAction_source {S : Type} (c : ExecutorContext S) (a : CtxAction S) :
    (applyAction c a).source = c.source := by
  cases a <;> rfl

theorem applyActions_source {S : Type} (c : ExecutorContext S) (acts : List (CtxAction S)) :
    (applyActions c acts).source = c.source := by
  induction acts generalizing c with
  | nil => rfl
  | cons a rest ih => simp [applyActions, ih, applyAction_source]

theorem applyAction_initial {S : Type} (c : ExecutorContext S) (a : CtxAction S) :
    (applyAction c a).initial = c.initial := by
  cases a <;> rfl

theorem applyActions_initial {S : Type} (c : ExecutorContext S) (acts : List (CtxAction S)) :
    (applyActions c acts).initial = c.initial := by
  induction acts generalizing c with
  | nil => rfl
  | cons a rest ih => simp [applyActions, ih, applyAction_initial]

theorem applyAction_entered {S : Type} (c : ExecutorContext S) (a : CtxAction S) :
    (applyAction c a).entered = c.entered := by
  cases a <;> rfl

theorem applyActions_entered {S : Type} (c : ExecutorContext S) (acts : List (CtxAction S)) :
    (applyActions c acts).entered = c.entered := by
  induction acts generalizing c with
  | nil => rfl
  | cons a rest ih => simp [applyActions, ih, applyAction_entered]

theorem notify_context (ex : StateMachineExecutor S U V E) (e : Event S U V E) :
    (ex.notify e).context = ex.context := by
  unfold StateMachineExecutor.notify; split <;> rfl

theorem notify_fallback (ex : StateMachineExecutor S U V E) (e : Event S U V E) :
    (ex.notify e).fallback = ex.fallback := by
  unfold StateMachineExecutor.notify; split <;> rfl

theorem notify_pending (ex : StateMachineExecutor S U V E) (e : Event S U V E) :
    (ex.notify e).pending = ex.pending := by
  unfold StateMachineExecutor.notify; split <;> rfl

theorem notify_hasSubscriber (ex : StateMachineExecutor S U V E) (e : Event S U V E) :
    (ex.notify e).hasSubscriber = ex.hasSubscriber := by
  unfold StateMachineExecutor.notify; split <;> rfl

theorem notify_events (ex : StateMachineExecutor S U V E) (e : Event S U V E) :
    ∃ Δ, (ex.notify e).events = ex.events ++ Δ := by
  unfold StateMachineExecutor.notify; split
  · exact ⟨[e], rfl⟩
  · exact ⟨[], by simp⟩

theorem notify_events_true (ex : StateMachineExecutor S U V E) (e : Event S U V E)
    (h : ex.hasSubscriber = true) : (ex.notify e).events = ex.events ++ [e] := by
  unfold StateMachineExecutor.notify; simp [h]

theorem notify_current_state (ex : StateMachineExecutor S U V E) (e : Event S U V E) :
    (ex.notify e).current_state = ex.current_state := by
  unfold StateMachineExecutor.current_state; rw [notify_context]

/-- `enter_state` raises exactly when the machine is aborted. -/
theorem enter_state_aborted (ex : StateMachineExecutor S U V E) (income : U)
    (h : ex.is_aborted = true) :
    ex.enter_state income = .error (ex.current_state, income) := by
  unfold StateMachineExecutor.enter_state; simp [h]

/-- When not aborted, `enter_state` succeeds; the resulting context only clears
`initial` and sets `entered`, and all other executor fields except the event
log are unchanged. -/
theorem enter_state_ok (ex : StateMachineExecutor S U V E) (income : U)
    (h : ex.is_aborted = false) :
    ∃ ex1, ex.enter_state income = .ok ex1 ∧
      ex1.context = { ex.context with initial := false, entered := true } ∧
      ex1.fallback = ex.fallback ∧ ex1.pending = ex.pending ∧
      ex1.hasSubscriber = ex.hasSubscriber ∧
      ∃ Δ, ex1.events = ex.events ++ Δ := by
  obtain ⟨⟨src, dst, ini, ent, df, rc, ab⟩, fb, hs, pn, ev⟩ := ex
  simp only [StateMachineExecutor.is_aborted] at h
  subst h
  cases ini <;> cases ent <;> cases hs <;>
    refine ⟨_, rfl, ?_, ?_, ?_, ?_, ?_⟩ <;>
      simp [StateMachineExecutor.enter_state, StateMachineExecutor.notify,
        StateMachineExecutor.current_state]

theorem reset_state_none [DecidableEq S] (ex : StateMachineExecutor S U V E)
    (h : ex.context.destination = none) : ex.reset_state = (ex, false) := by
  unfold StateMachineExecutor.reset_state
  rw [if_pos]
  unfold ExecutorContext.can_transit
  rw [h]

theorem reset_state_self [DecidableEq S] (ex : StateMachineExecutor S U V E) (d : S)
    (h : ex.context.destination = some d) (hd : ex.context.source = d) :
    ex.reset_state = (ex, false) := by
  unfold StateMachineExecutor.reset_state
  rw [if_pos]
  unfold ExecutorContext.can_transit
  rw [h]
  simp [hd]

theorem reset_state_go [DecidableEq S] (ex : StateMachineExecutor S U V E) (d : S)
    (h : ex.context.destination = some d) (hd : ex.context.source ≠ d) :
    ex.reset_state =
      (({ ex with context :=
          { ex.context with source := d, destination := none, entered := false } }).notify
            (.transition ex.context.source d), true) := by
  unfold StateMachineExecutor.reset_state
  rw [if_neg]
  · unfold ExecutorContext.transit
    rw [h]
  · unfold ExecutorContext.can_transit
    rw [h]
    simp [hd]

theorem reset_state_hasSubscriber [DecidableEq S] (ex : StateMachineExecutor S U V E) :
    (ex.reset_state).1.hasSubscriber = ex.hasSubscriber := by
  unfold StateMachineExecutor.reset_state
  split
  · rfl
  · dsimp only
    split <;> simp [notify_hasSubscriber]

theorem reset_state_events [DecidableEq S] (ex : StateMachineExecutor S U V E) :
    ∃ Δ, (ex.reset_state).1.events = ex.events ++ Δ := by
  unfold StateMachineExecutor.reset_state
  split
  · exact ⟨[], by simp⟩
  · dsimp only
    split
    · rename_i d _
      obtain ⟨Δ, hΔ⟩ := notify_events
        { ex with context := (ex.context.transit).2 } (.transition (ex.context.transit).1.1 d)
      exact ⟨Δ, by simpa using hΔ⟩
    · exact ⟨[], by simp⟩

theorem reset_state_pending [DecidableEq S] (ex : StateMachineExecutor S U V E) :
    (ex.reset_state).1.pending = ex.pending := by
  unfold StateMachineExecutor.reset_state
  split
  · rfl
  · dsimp only
    split <;> simp [notify_pending]

theorem reset_state_fallback [DecidableEq S] (ex : StateMachineExecutor S U V E) :
    (ex.reset_state).1.fallback = ex.fallback := by
  unfold StateMachineExecutor.reset_state
  split
  · rfl
  · dsimp only
    split <;> simp [notify_fallback]

theorem reset_state_aborted [DecidableEq S] (ex : StateMachineExecutor S U V E) :
    (ex.reset_state).1.context.aborted = ex.context.aborted := by
  cases h : ex.context.destination with
  | none => rw [reset_state_none ex h]
  | some d =>
    by_cases hd : ex.context.source = d
    · rw [reset_state_self ex d h hd]
    · rw [reset_state_go ex d h hd, notify_context]

theorem handle_outcome_hasSubscriber (ex : StateMachineExecutor S U V E) (u : U) (v : V) :
    (ex.handle_outcome u v).hasSubscriber = ex.hasSubscriber :=
  notify_hasSubscriber ex _

theorem handle_outcome_context (ex : StateMachineExecutor S U V E) (u : U) (v : V) :
    (ex.handle_outcome u v).context = ex.context :=
  notify_context ex _

theorem handle_outcome_pending (ex : StateMachineExecutor S U V E) (u : U) (v : V) :
    (ex.handle_outcome u v).pending = ex.pending :=
  notify_pending ex _

theorem handle_outcome_fallback (ex : StateMachineExecutor S U V E) (u : U) (v : V) :
    (ex.handle_outcome u v).fallback = ex.fallback :=
  notify_fallback ex _

theorem leave_state_hasSubscriber [DecidableEq S] (ex : StateMachineExecutor S U V E)
    (income : U) : (ex.leave_state income).hasSubscriber = ex.hasSubscriber := by
  unfold StateMachineExecutor.leave_state
  have base : ∀ ex1 : StateMachineExecutor S U V E,
      ex1.hasSubscriber = ex.hasSubscriber →
      (if ex1.is_aborted = true then ex1.notify (.final ex1.current_state)
        else ex1).hasSubscriber = ex.hasSubscriber := by
    intro ex1 h1
    split
    · rw [notify_hasSubscriber, h1]
    · exact h1
  apply base
  rw [reset_state_hasSubscriber]
  have mid : ∀ ex1 : StateMachineExecutor S U V E,
      ex1.hasSubscriber = ex.hasSubscriber →
      (if ex1.context.can_transit = true
        then ex1.notify (.state_left ex1.current_state income)
        else ex1).hasSubscriber = ex.hasSubscriber := by
    intro ex1 h1
    split
    · rw [notify_hasSubscriber, h1]
    · exact h1
  apply mid
  split
  · simp [notify_hasSubscriber]
  · rfl

theorem leave_state_fallback [DecidableEq S] (ex : StateMachineExecutor S U V E)
    (income : U) : (ex.leave_state income).fallback = ex.fallback := by
  unfold StateMachineExecutor.leave_state
  have base : ∀ ex1 : StateMachineExecutor S U V E,
      ex1.fallback = ex.fallback →
      (if ex1.is_aborted = true then ex1.notify (.final ex1.current_state)
        else ex1).fallback = ex.fallback := by
    intro ex1 h1
    split
    · rw [notify_fallback, h1]
    · exact h1
  apply base
  rw [reset_state_fallback]
  have mid : ∀ ex1 : StateMachineExecutor S U V E,
      ex1.fallback = ex.fallback →
      (if ex1.context.can_transit = true
        then ex1.notify (.state_left ex1.current_state income)
        else ex1).fallback = ex.fallback := by
    intro ex1 h1
    split
    · rw [notify_fallback, h1]
    · exact h1
  apply mid
  split
  · simp [notify_fallback]
  · rfl

theorem leave_state_events [DecidableEq S] (ex : StateMachineExecutor S U V E)
    (income : U) : ∃ Δ, (ex.leave_state income).events = ex.events ++ Δ := by
  unfold StateMachineExecutor.leave_state
  have base :
      ∀ ex1 : StateMachineExecutor S U V E, (∃ Δ, ex1.events = ex.events ++ Δ) →
        ∃ Δ, (if ex1.is_aborted = true
          then ex1.notify (.final ex1.current_state) else ex1).events = ex.events ++ Δ := by
    intro ex1 ⟨Δ, hΔ⟩
    split
    · obtain ⟨Δ2, h2⟩ := notify_events ex1 (.final ex1.current_state)
      exact ⟨Δ ++ Δ2, by simp [h2, hΔ]⟩
    · exact ⟨Δ, hΔ⟩
  have mid :
      ∀ ex1 : StateMachineExecutor S U V E, (∃ Δ, ex1.events = ex.events ++ Δ) →
        ∃ Δ, ((ex1.reset_state).1).events = ex.events ++ Δ := by
    intro ex1 ⟨Δ, hΔ⟩
    obtain ⟨Δ2, h2⟩ := reset_state_events ex1
    exact ⟨Δ ++ Δ2, by simp [h2, hΔ]⟩
  have mid2 :
      ∀ ex1 : StateMachineExecutor S U V E, (∃ Δ, ex1.events = ex.events ++ Δ) →
        ∃ Δ, (if ex1.context.can_transit = true
          then ex1.notify (.state_left ex1.current_state income) else ex1).events =
            ex.events ++ Δ := by
    intro ex1 ⟨Δ, hΔ⟩
    split
    · obtain ⟨Δ2, h2⟩ := notify_events ex1 (.state_left ex1.current_state income)
      exact ⟨Δ ++ Δ2, by simp [h2, hΔ]⟩
    · exact ⟨Δ, hΔ⟩
  apply base
  apply mid
  apply mid2
  split
  · obtain ⟨Δ2, h2⟩ := notify_events { ex with pending := ex.pending ++ [income] }
      (.income_deferred (StateMachineExecutor.current_state
        { ex with pending := ex.pending ++ [income] }) income)
    exact ⟨Δ2, by simpa using h2⟩
  · exact ⟨[], by simp⟩

theorem handle_state_error_hasSubscriber [DecidableEq S] (ex : StateMachineExecutor S U V E)
    (err : E) : (ex.handle_state_error err).1.hasSubscriber = ex.hasSubscriber := by
  unfold StateMachineExecutor.handle_state_error
  dsimp only
  split
  · simp [notify_hasSubscriber]
  · split
    · simp [notify_hasSubscriber]
    · simp [reset_state_hasSubscriber, notify_hasSubscriber]

theorem handle_state_error_events [DecidableEq S] (ex : StateMachineExecutor S U V E)
    (err : E) : ∃ Δ, (ex.handle_state_error err).1.events = ex.events ++ Δ := by
  unfold StateMachineExecutor.handle_state_error
  dsimp only
  obtain ⟨Δ1, h1⟩ := notify_events ex (.state_failed ex.current_state err)
  split
  · exact ⟨Δ1, h1⟩
  · split
    · exact ⟨Δ1, h1⟩
    · obtain ⟨Δ2, h2⟩ := reset_state_events
        { ex.notify (.state_failed ex.current_state err) with
          context := (ex.notify (.state_failed ex.current_state err)).context.set_state _ false }
      refine ⟨Δ1 ++ Δ2, ?_⟩
      simp only at h2 ⊢
      rw [h2]
      simp [h1]

theorem events_mono_mem {ex ex' : StateMachineExecutor S U V E}
    (h : ∃ Δ, ex'.events = ex.events ++ Δ) {e : Event S U V E}
    (he : e ∈ ex.events) : e ∈ ex'.events := by
  obtain ⟨Δ, hΔ⟩ := h
  rw [hΔ]
  exact List.mem_append_left Δ he

theorem unary_visit_aborted [DecidableEq S] (M : Machine S U V E)
    (ex : StateMachineExecutor S U V E) (u : U) (h : ex.is_aborted = true) :
    unary_visit M ex u = (.error (.aborted ex.current_state u), ex, []) := by
  unfold unary_visit
  rw [enter_state_aborted ex u h]

theorem unary_visit_err [DecidableEq S] (M : Machine S U V E)
    (ex ex1 : StateMachineExecutor S U V E) (u : U) (e : E)
    (henter : ex.enter_state u = .ok ex1)
    (hres : (M ex1.current_state u).result = .error e) :
    unary_visit M ex u = (.error (.raised e),
      (({ ex1 with context := applyActions ex1.context (M ex1.current_state u).actions
        }).handle_state_error e).1, [(ex1, u)]) := by
  unfold unary_visit
  rw [henter]
  dsimp only
  rw [hres]

theorem unary_visit_okv [DecidableEq S] (M : Machine S U V E)
    (ex ex1 : StateMachineExecutor S U V E) (u : U) (v : V)
    (henter : ex.enter_state u = .ok ex1)
    (hres : (M ex1.current_state u).result = .ok v) :
    unary_visit M ex u = (.ok v,
      (({ ex1 with context := applyActions ex1.context (M ex1.current_state u).actions
        }).handle_outcome u v).leave_state u, [(ex1, u)]) := by
  unfold unary_visit
  rw [henter]
  dsimp only
  rw [hres]

/-- Inversion: a successful visit handled exactly the given income, once, and the
value returned is the handler's outcome at the recorded snapshot. -/
theorem unary_visit_ok_inv [DecidableEq S] (M : Machine S U V E)
    (ex ex' : StateMachineExecutor S U V E) (u : U) (v : V)
    (es : List (StateMachineExecutor S U V E × U))
    (h : unary_visit M ex u = (.ok v, ex', es)) :
    ∃ exV, es = [(exV, u)] ∧ (M exV.current_state u).result = .ok v := by
  cases hab : ex.is_aborted with
  | true => rw [unary_visit_aborted M ex u hab] at h; simp at h
  | false =>
    obtain ⟨ex1, henter, -, -, -, -, -⟩ := enter_state_ok ex u hab
    cases hres : (M ex1.current_state u).result with
    | error e => rw [unary_visit_err M ex ex1 u e henter hres] at h; simp at h
    | ok w =>
      rw [unary_visit_okv M ex ex1 u w henter hres] at h
      simp only [Prod.mk.injEq, Except.ok.injEq] at h
      obtain ⟨hv, -, hes⟩ := h
      subst hv
      exact ⟨ex1, hes.symm, hres⟩

theorem unary_visit_events [DecidableEq S] (M : Machine S U V E)
    (ex : StateMachineExecutor S U V E) (u : U) :
    ∃ Δ, (unary_visit M ex u).2.1.events = ex.events ++ Δ := by
  cases hab : ex.is_aborted with
  | true => rw [unary_visit_aborted M ex u hab]; exact ⟨[], by simp⟩
  | false =>
    obtain ⟨ex1, henter, -, -, -, -, Δ1, h1⟩ := enter_state_ok ex u hab
    cases hres : (M ex1.current_state u).result with
    | error e =>
      rw [unary_visit_err M ex ex1 u e henter hres]
      obtain ⟨Δ2, h2⟩ := handle_state_error_events
        { ex1 with context := applyActions ex1.context (M ex1.current_state u).actions } e
      exact ⟨Δ1 ++ Δ2, by simp only at h2; rw [h2]; simp [h1]⟩
    | ok v =>
      rw [unary_visit_okv M ex ex1 u v henter hres]
      obtain ⟨Δ2, h2⟩ := leave_state_events
        (({ ex1 with context := applyActions ex1.context (M ex1.current_state u).actions
          }).handle_outcome u v) u
      obtain ⟨Δ3, h3⟩ := notify_events
        { ex1 with context := applyActions ex1.context (M ex1.current_state u).actions }
        (.state_outcome (StateMachineExecutor.current_state
          { ex1 with context := applyActions ex1.context (M ex1.current_state u).actions }) u v)
      refine ⟨Δ1 ++ Δ3 ++ Δ2, ?_⟩
      rw [h2]
      unfold StateMachineExecutor.handle_outcome
      rw [h3]
      simp only at h1 ⊢
      rw [h1]
      simp

theorem unary_visit_hasSubscriber [DecidableEq S] (M : Machine S U V E)
    (ex : StateMachineExecutor S U V E) (u : U) :
    (unary_visit M ex u).2.1.hasSubscriber = ex.hasSubscriber := by
  cases hab : ex.is_aborted with
  | true => rw [unary_visit_aborted M ex u hab]
  | false =>
    obtain ⟨ex1, henter, -, -, -, hsub, -⟩ := enter_state_ok ex u hab
    cases hres : (M ex1.current_state u).result with
    | error e =>
      rw [unary_visit_err M ex ex1 u e henter hres]
      rw [handle_state_error_hasSubscriber]
      exact hsub
    | ok v =>
      rw [unary_visit_okv M ex ex1 u v henter hres]
      rw [leave_state_hasSubscriber, handle_outcome_hasSubscriber]
      exact hsub

/-- A successful handler invocation inside a visit gets its outcome reported via
`handle_outcome`: the `state_outcome` event is in the resulting log (when a
subscriber is attached). -/
theorem unary_visit_reported [DecidableEq S] (M : Machine S U V E)
    (ex ex' : StateMachineExecutor S U V E) (u : U) (r : Except (RunErr S U E) V)
    (es : List (StateMachineExecutor S U V E × U))
    (hs : ex.hasSubscriber = true)
    (h : unary_visit M ex u = (r, ex', es)) :
    ∀ p ∈ es, ∀ w, (M (p.1.current_state) p.2).result = .ok w →
      Event.state_outcome p.1.current_state p.2 w ∈ ex'.events := by
  cases hab : ex.is_aborted with
  | true =>
    rw [unary_visit_aborted M ex u hab] at h
    simp only [Prod.mk.injEq] at h
    obtain ⟨-, -, hes⟩ := h
    intro p hp
    rw [← hes] at hp
    simp at hp
  | false =>
    obtain ⟨ex1, henter, hctx, -, -, hsub, -⟩ := enter_state_ok ex u hab
    cases hres : (M ex1.current_state u).result with
    | error e =>
      rw [unary_visit_err M ex ex1 u e henter hres] at h
      simp only [Prod.mk.injEq] at h
      obtain ⟨-, -, hes⟩ := h
      intro p hp w hw
      rw [← hes] at hp
      simp only [List.mem_singleton] at hp
      subst hp
      rw [hres] at hw
      exact absurd hw (by simp)
    | ok v =>
      rw [unary_visit_okv M ex ex1 u v henter hres] at h
      simp only [Prod.mk.injEq] at h
      obtain ⟨-, hex, hes⟩ := h
      intro p hp w hw
      rw [← hes] at hp
      simp only [List.mem_singleton] at hp
      subst hp
      rw [hres] at hw
      have hwv : w = v := (Except.ok.inj hw).symm
      subst hwv
      set ex2 : StateMachineExecutor S U V E :=
        { ex1 with context := applyActions ex1.context (M ex1.current_state u).actions } with hex2
      have hsrc : ex2.current_state = ex1.current_state := by
        rw [hex2]
        unfold StateMachineExecutor.current_state
        exact applyActions_source ex1.context (M ex1.current_state u).actions
      have hsub2 : ex2.hasSubscriber = true := by rw [hex2]; rw [hsub, hs]
      have hmem : Event.state_outcome ex1.current_state u w ∈ (ex2.handle_outcome u w).events := by
        unfold StateMachineExecutor.handle_outcome
        rw [notify_events_true _ _ hsub2, hsrc]
        simp
      rw [← hex]
      exact events_mono_mem (leave_state_events (ex2.handle_outcome u w) u) hmem

theorem recall_pop_hasSubscriber (ex : StateMachineExecutor S U V E) (income : U) :
    (recall_pop ex income).hasSubscriber = ex.hasSubscriber := by
  unfold recall_pop
  dsimp only
  rw [notify_hasSubscriber]

theorem recall_pop_events (ex : StateMachineExecutor S U V E) (income : U) :
    ∃ Δ, (recall_pop ex income).events = ex.events ++ Δ := by
  unfold recall_pop
  dsimp only
  obtain ⟨Δ, hΔ⟩ := notify_events { ex with pending := ex.pending.dropLast }
    (.income_recalled (StateMachineExecutor.current_state
      { ex with pending := ex.pending.dropLast }) income)
  exact ⟨Δ, by simpa using hΔ⟩

theorem recall_pop_pending (ex : StateMachineExecutor S U V E) (income : U) :
    (recall_pop ex income).pending = ex.pending.dropLast := by
  unfold recall_pop
  dsimp only
  rw [notify_pending]

theorem recall_pop_source (ex : StateMachineExecutor S U V E) (income : U) :
    (recall_pop ex income).current_state = ex.current_state := by
  unfold recall_pop StateMachineExecutor.current_state
  dsimp only
  rw [notify_context]

theorem recall_pop_recalled (ex : StateMachineExecutor S U V E) (income : U) :
    (recall_pop ex income).context.recalled = false := by
  unfold recall_pop
  dsimp only

theorem recall_pop_aborted (ex : StateMachineExecutor S U V E) (income : U) :
    (recall_pop ex income).is_aborted = ex.is_aborted := by
  unfold recall_pop StateMachineExecutor.is_aborted
  dsimp only
  rw [notify_context]

theorem recall_pop_fallback (ex : StateMachineExecutor S U V E) (income : U) :
    (recall_pop ex income).fallback = ex.fallback := by
  unfold recall_pop
  dsimp only
  rw [notify_fallback]

theorem recall_pop_events_true (ex : StateMachineExecutor S U V E) (income : U)
    (hs : ex.hasSubscriber = true) :
    (recall_pop ex income).events =
      ex.events ++ [Event.income_recalled ex.current_state income] := by
  unfold recall_pop
  dsimp only
  rw [notify_events_true { ex with pending := ex.pending.dropLast } _ hs]
  rfl

/-- The recall loop only appends to the invocation trace. -/
theorem unary_recall_loop_trace [DecidableEq S] (M : Machine S U V E) :
    ∀ (fuel : Nat) (ex : StateMachineExecutor S U V E) (out : V)
      (tr : List (StateMachineExecutor S U V E × U)),
      ∃ Δ, (unary_recall_loop M fuel ex out tr).2.2 = tr ++ Δ := by
  intro fuel
  induction fuel with
  | zero =>
    intro ex out tr
    unfold unary_recall_loop
    split <;> exact ⟨[], by simp⟩
  | succ n ih =>
    intro ex out tr
    unfold unary_recall_loop
    split
    · cases hL : ex.pending.getLast? with
      | none => exact ⟨[], by simp [hL]⟩
      | some income =>
        simp only [hL]
        rcases hv : unary_visit M (recall_pop ex income) income with ⟨r, ex1, es⟩
        cases r with
        | error err => simp only [hv]; exact ⟨es, rfl⟩
        | ok v =>
          simp only [hv]
          obtain ⟨Δ2, h2⟩ := ih ex1 v (tr ++ es)
          exact ⟨es ++ Δ2, by rw [h2]; simp⟩
    · exact ⟨[], by simp⟩

/-- When the recall loop terminates normally, the value it returns is either the
incoming `out` (no iteration ran) with the trace unchanged, or the handler
outcome of the last invocation appended to the trace. -/
theorem unary_recall_loop_last [DecidableEq S] (M : Machine S U V E) :
    ∀ (fuel : Nat) (ex : StateMachineExecutor S U V E) (out : V)
      (tr : List (StateMachineExecutor S U V E × U)) (v : V)
      (ex' : StateMachineExecutor S U V E)
      (tr' : List (StateMachineExecutor S U V E × U)),
      unary_recall_loop M fuel ex out tr = (.ok v, ex', tr') →
      (v = out ∧ tr' = tr) ∨
        ∃ pre p, tr' = pre ++ [p] ∧ (M (p.1.current_state) p.2).result = .ok v := by
  intro fuel
  induction fuel with
  | zero =>
    intro ex out tr v ex' tr' h
    unfold unary_recall_loop at h
    split at h
    · simp at h
    · simp only [Prod.mk.injEq, Except.ok.injEq] at h
      exact Or.inl ⟨h.1.symm, h.2.2.symm⟩
  | succ n ih =>
    intro ex out tr v ex' tr' h
    unfold unary_recall_loop at h
    split at h
    · cases hL : ex.pending.getLast? with
      | none =>
        simp only [hL] at h
        simp only [Prod.mk.injEq, Except.ok.injEq] at h
        exact Or.inl ⟨h.1.symm, h.2.2.symm⟩
      | some income =>
        simp only [hL] at h
        rcases hv : unary_visit M (recall_pop ex income) income with ⟨r, ex1, es⟩
        rw [hv] at h
        cases r with
        | error err => simp at h
        | ok w =>
          obtain ⟨exV, hesV, hresV⟩ := unary_visit_ok_inv M _ ex1 income w es hv
          rcases ih ex1 w (tr ++ es) v ex' tr' h with ⟨hvw, htr⟩ | ⟨pre, p, hpre, hres⟩
          · subst hvw
            exact Or.inr ⟨tr, (exV, income), by rw [htr, hesV], by exact hresV⟩
          · exact Or.inr ⟨pre, p, hpre, hres⟩
    · simp only [Prod.mk.injEq, Except.ok.injEq] at h
      exact Or.inl ⟨h.1.symm, h.2.2.symm⟩

/-- Every successfully handled invocation recorded by the recall loop has its
outcome reported via `handle_outcome` (a `state_outcome` event in the final log),
provided a subscriber is attached and the invocations already in the trace were
reported in the incoming log. -/
theorem unary_recall_loop_reported [DecidableEq S] (M : Machine S U V E) :
    ∀ (fuel : Nat) (ex : StateMachineExecutor S U V E) (out : V)
      (tr : List (StateMachineExecutor S U V E × U)) (r : Except (RunErr S U E) V)
      (ex' : StateMachineExecutor S U V E)
      (tr' : List (StateMachineExecutor S U V E × U)),
      ex.hasSubscriber = true →
      (∀ p ∈ tr, ∀ w, (M (p.1.current_state) p.2).result = .ok w →
        Event.state_outcome p.1.current_state p.2 w ∈ ex.events) →
      unary_recall_loop M fuel ex out tr = (r, ex', tr') →
      ∀ p ∈ tr', ∀ w, (M (p.1.current_state) p.2).result = .ok w →
        Event.state_outcome p.1.current_state p.2 w ∈ ex'.events := by
  intro fuel
  induction fuel with
  | zero =>
    intro ex out tr r ex' tr' hs hrep h
    unfold unary_recall_loop at h
    split at h <;>
      (simp only [Prod.mk.injEq] at h
       obtain ⟨-, hex, htr⟩ := h
       subst hex
       subst htr
       exact hrep)
  | succ n ih =>
    intro ex out tr r ex' tr' hs hrep h
    unfold unary_recall_loop at h
    split at h
    · cases hL : ex.pending.getLast? with
      | none =>
        simp only [hL] at h
        simp only [Prod.mk.injEq] at h
        obtain ⟨-, hex, htr⟩ := h
        subst hex
        subst htr
        exact hrep
      | some income =>
        simp only [hL] at h
        set exC : StateMachineExecutor S U V E := recall_pop ex income with hexC
        have hsC : exC.hasSubscriber = true := by
          rw [hexC, recall_pop_hasSubscriber]
          exact hs
        have hevC : ∃ Δ, exC.events = ex.events ++ Δ := by
          rw [hexC]
          exact recall_pop_events ex income
        rcases hv : unary_visit M exC income with ⟨rv, ex1, es⟩
        rw [hv] at h
        have hs1 : ex1.hasSubscriber = true := by
          have := unary_visit_hasSubscriber M exC income
          rw [hv] at this
          simpa [hsC] using this
        have hev1 : ∃ Δ, ex1.events = exC.events ++ Δ := by
          have := unary_visit_events M exC income
          rw [hv] at this
          simpa using this
        have hrep1 : ∀ p ∈ tr ++ es, ∀ w, (M (p.1.current_state) p.2).result = .ok w →
            Event.state_outcome p.1.current_state p.2 w ∈ ex1.events := by
          intro p hp w hw
          rcases List.mem_append.mp hp with hp1 | hp2
          · refine events_mono_mem ?_ (hrep p hp1 w hw)
            obtain ⟨Δ1, h1⟩ := hevC
            obtain ⟨Δ2, h2⟩ := hev1
            exact ⟨Δ1 ++ Δ2, by rw [h2, h1]; simp⟩
          · exact unary_visit_reported M exC ex1 income rv es hsC hv p hp2 w hw
        cases rv with
        | error err =>
          simp only [Prod.mk.injEq] at h
          obtain ⟨-, hex, htr⟩ := h
          subst hex
          subst htr
          exact hrep1
        | ok w => exact ih ex1 w (tr ++ es) r ex' tr' hs1 hrep1 h
    · simp only [Prod.mk.injEq] at h
      obtain ⟨-, hex, htr⟩ := h
      subst hex
      subst htr
      exact hrep

/-! Helper lemmas about context actions and transitions. -/

theorem applyActions_append {S : Type} (c : ExecutorContext S)
    (l1 l2 : List (CtxAction S)) :
    applyActions c (l1 ++ l2) = applyActions (applyActions c l1) l2 := by
  induction l1 generalizing c with
  | nil => rfl
  | cons a rest ih => simp [applyActions, ih]

theorem set_state_chain {S : Type} (c : ExecutorContext S) (calls : List (S × Bool))
    (s : S) (f : Bool) :
    applyActions c ((calls.map fun p => CtxAction.set_state p.1 p.2) ++
      [CtxAction.set_state s f]) = c.set_state s f := by
  induction calls generalizing c with
  | nil => rfl
  | cons p rest ih =>
    simp only [List.map_cons, List.cons_append, applyActions, applyAction,
      List.append_eq]
    rw [ih]
    rfl

theorem STransition_perform_fst {K U S : Type} (t : STransition K U S) (income : U)
    (c : ExecutorContext S) : (t.perform income c).1 = t.firesSpec income := by
  cases t with
  | constant d => rfl
  | conditional cond th el =>
    unfold STransition.perform STransition.firesSpec
    by_cases hc : cond income
    · simp [hc]
    · cases el <;> simp [hc]
  | mapping key dests dflt =>
    unfold STransition.perform STransition.firesSpec
    cases hk : dests (key income) <;> cases dflt <;> simp [hk]

theorem STransition_perform_false {K U S : Type} (t : STransition K U S) (income : U)
    (c : ExecutorContext S) (h : t.firesSpec income = false) :
    (t.perform income c).2 = c := by
  cases t with
  | constant d => simp [STransition.firesSpec] at h
  | conditional cond th el =>
    unfold STransition.firesSpec at h
    simp only [Bool.or_eq_false_iff] at h
    unfold STransition.perform
    rcases h with ⟨h1, h2⟩
    cases el with
    | none => simp [h1]
    | some o => simp at h2
  | mapping key dests dflt =>
    unfold STransition.firesSpec at h
    unfold STransition.perform
    dsimp only at h ⊢
    cases hk : dests (key income) with
    | some d => rw [hk] at h; simp at h
    | none =>
      cases hd : dflt with
      | some o => rw [hk, hd] at h; simp at h
      | none => simp [hk, hd]

theorem MCTransition_perform_fst {K T S : Type} (finalOf : S → Bool)
    (t : MCTransition K T S) (container : T) (c : ExecutorContext S) :
    (t.perform finalOf container c).1 = t.firesSpec container := by
  cases t with
  | constant d => rfl
  | conditional cond th el =>
    unfold MCTransition.perform MCTransition.firesSpec
    by_cases hc : cond container
    · simp [hc]
    · cases el <;> simp [hc]
  | keyMapping key dests dflt =>
    unfold MCTransition.perform MCTransition.firesSpec
    cases hk : dests (key container) <;> cases dflt <;> simp [hk]

theorem MCTransition_perform_false {K T S : Type} (finalOf : S → Bool)
    (t : MCTransition K T S) (container : T) (c : ExecutorContext S)
    (h : t.firesSpec container = false) :
    (t.perform finalOf container c).2 = c := by
  cases t with
  | constant d => simp [MCTransition.firesSpec] at h
  | conditional cond th el =>
    unfold MCTransition.firesSpec at h
    simp only [Bool.or_eq_false_iff] at h
    unfold MCTransition.perform
    rcases h with ⟨h1, h2⟩
    cases el with
    | none => simp [h1]
    | some o => simp at h2
  | keyMapping key dests dflt =>
    unfold MCTransition.firesSpec at h
    unfold MCTransition.perform
    dsimp only at h ⊢
    cases hk : dests (key container) with
    | some d => rw [hk] at h; simp at h
    | none =>
      cases hd : dflt with
      | some o => rw [hk, hd] at h; simp at h
      | none => simp [hk, hd]

theorem executeTransitions_spec {K U S : Type} (ts : List (STransition K U S))
    (income : U) (c : ExecutorContext S) :
    (executeTransitions ts income c).1 = ts.find? (fun t => t.firesSpec income) ∧
    (executeTransitions ts income c).2 =
      (match ts.find? (fun t => t.firesSpec income) with
        | some t => (t.perform income c).2
        | none => c) := by
  induction ts generalizing c with
  | nil => exact ⟨rfl, rfl⟩
  | cons t rest ih =>
    unfold executeTransitions
    cases hp : t.perform income c with
    | mk fired c1 =>
      have hf : fired = t.firesSpec income := by
        rw [← STransition_perform_fst t income c, hp]
      cases fired with
      | true =>
        have hfind : (t :: rest).find? (fun tt => tt.firesSpec income) = some t :=
          List.find?_cons_of_pos rest
            (show (fun tt => STransition.firesSpec tt income) t = true from hf.symm)
        rw [hfind]
        constructor
        · rfl
        · show c1 = (t.perform income c).2
          rw [hp]
      | false =>
        have hfind : (t :: rest).find? (fun tt => tt.firesSpec income) =
            rest.find? (fun tt => tt.firesSpec income) :=
          List.find?_cons_of_neg rest
            (show ¬ ((fun tt => STransition.firesSpec tt income) t = true) from by
              simp [← hf])
        rw [hfind]
        have hc1 : c1 = c := by
          rw [show c1 = (t.perform income c).2 from by rw [hp]]
          exact STransition_perform_false t income c hf.symm
        rw [hc1]
        exact ih c

theorem methodCallTransit_spec {K T S : Type} (finalOf : S → Bool)
    (ts : List (MCTransition K T S)) (container : T) (c : ExecutorContext S) :
    methodCallTransit finalOf ts container c =
      (match ts.find? (fun t => t.firesSpec container) with
        | some t => (t.perform finalOf container c).2
        | none => c) := by
  induction ts generalizing c with
  | nil => rfl
  | cons t rest ih =>
    unfold methodCallTransit
    cases hp : t.perform finalOf container c with
    | mk fired c1 =>
      have hf : fired = t.firesSpec container := by
        rw [← MCTransition_perform_fst finalOf t container c, hp]
      cases fired with
      | true =>
        have hfind : (t :: rest).find? (fun tt => tt.firesSpec container) = some t :=
          List.find?_cons_of_pos rest
            (show (fun tt => MCTransition.firesSpec tt container) t = true from hf.symm)
        rw [hfind]
        show c1 = (t.perform finalOf container c).2
        rw [hp]
      | false =>
        have hfind : (t :: rest).find? (fun tt => tt.firesSpec container) =
            rest.find? (fun tt => tt.firesSpec container) :=
          List.find?_cons_of_neg rest
            (show ¬ ((fun tt => MCTransition.firesSpec tt container) t = true) from by
              simp [← hf])
        rw [hfind]
        have hc1 : c1 = c := by
          rw [show c1 = (t.perform finalOf container c).2 from by rw [hp]]
          exact MCTransition_perform_false finalOf t container c hf.symm
        rw [hc1]
        exact ih c

/-- Leave-processing when no transition can occur (no pending destination, or a
destination equal to the source): deferred push and `final` notification only;
the destination cell is NOT consumed in the self-destination case. -/
theorem leave_state_spec_stay [DecidableEq S] (ex : StateMachineExecutor S U V E)
    (income : U) (h : ex.context.can_transit = false) :
    ex.leave_state income =
      { context := { ex.context with deferred := false },
        fallback := ex.fallback,
        hasSubscriber := ex.hasSubscriber,
        pending := if ex.context.deferred then ex.pending ++ [income] else ex.pending,
        events := ex.events ++
          (if ex.hasSubscriber then
            (if ex.context.deferred then
              [Event.income_deferred ex.current_state income] else []) ++
            (if ex.context.aborted then [Event.final ex.current_state] else [])
          else []) } := by
  obtain ⟨⟨src, dst, ini, ent, df, rc, ab⟩, fb, hs, pn, ev⟩ := ex
  unfold ExecutorContext.can_transit at h
  dsimp only at h ⊢
  unfold StateMachineExecutor.leave_state
  cases dst with
  | none =>
    cases df <;> cases ab <;> cases hs <;>
      simp [StateMachineExecutor.notify, StateMachineExecutor.reset_state,
        StateMachineExecutor.is_aborted, StateMachineExecutor.current_state,
        ExecutorContext.can_transit]
  | some d =>
    have hsd : src = d := by simpa using h
    subst hsd
    cases df <;> cases ab <;> cases hs <;>
      simp [StateMachineExecutor.notify, StateMachineExecutor.reset_state,
        StateMachineExecutor.is_aborted, StateMachineExecutor.current_state,
        ExecutorContext.can_transit]

/-- Leave-processing when a transition occurs (pending destination differing
from the source): deferred push, `state_left`, swap/clear, `transition`, and
`final` with the new state when aborted. -/
theorem leave_state_spec_go [DecidableEq S] (ex : StateMachineExecutor S U V E)
    (income : U) (d : S) (h : ex.context.destination = some d)
    (hd : ex.context.source ≠ d) :
    ex.leave_state income =
      { context := { ex.context with
            source := d
            destination := none
            entered := false
            deferred := false },
        fallback := ex.fallback,
        hasSubscriber := ex.hasSubscriber,
        pending := if ex.context.deferred then ex.pending ++ [income] else ex.pending,
        events := ex.events ++
          (if ex.hasSubscriber then
            (if ex.context.deferred then
              [Event.income_deferred ex.current_state income] else []) ++
            [Event.state_left ex.current_state income,
             Event.transition ex.current_state d] ++
            (if ex.context.aborted then [Event.final d] else [])
          else []) } := by
  obtain ⟨⟨src, dstX, ini, ent, df, rc, ab⟩, fb, hs, pn, ev⟩ := ex
  dsimp only at h hd ⊢
  subst h
  unfold StateMachineExecutor.leave_state
  cases df <;> cases ab <;> cases hs <;>
    simp [StateMachineExecutor.notify, StateMachineExecutor.reset_state,
      StateMachineExecutor.is_aborted, StateMachineExecutor.current_state,
      ExecutorContext.can_transit, ExecutorContext.transit, hd]

/-- Error dispatch with no fallback resolver: only `state_failed` is notified
and the method reports failure (so `visit_state` re-raises). -/
theorem hse_no_resolver [DecidableEq S] (ex : StateMachineExecutor S U V E) (e : E)
    (hfb : ex.fallback = none) :
    ex.handle_state_error e = (ex.notify (.state_failed ex.current_state e), false) := by
  unfold StateMachineExecutor.handle_state_error
  dsimp only
  rw [notify_fallback, hfb]

/-- Error dispatch when the resolver yields no destination: only `state_failed`
is notified and the method reports failure. -/
theorem hse_unresolved [DecidableEq S] (ex : StateMachineExecutor S U V E) (e : E)
    (fb : E → Option S) (hfb : ex.fallback = some fb) (hfd : fb e = none) :
    ex.handle_state_error e = (ex.notify (.state_failed ex.current_state e), false) := by
  unfold StateMachineExecutor.handle_state_error
  dsimp only
  rw [notify_fallback, hfb]
  dsimp only
  rw [hfd]

/-- Error dispatch when the resolver yields a destination `d`: `state_failed`
is notified, the context is set as by `set_state(d)` and `reset_state` runs —
only the transition part of leave-processing, with no deferred-queue push and
no `state_left`, `income_deferred` or `final` notification. -/
theorem hse_resolved [DecidableEq S] (ex : StateMachineExecutor S U V E) (e : E)
    (fb : E → Option S) (d : S) (hfb : ex.fallback = some fb) (hfd : fb e = some d) :
    (ex.handle_state_error e).1.current_state = d ∧
    (ex.handle_state_error e).1.context.aborted = false ∧
    (ex.handle_state_error e).1.context.recalled = false ∧
    (ex.handle_state_error e).1.context.deferred = ex.context.deferred ∧
    (ex.handle_state_error e).1.pending = ex.pending ∧
    (ex.handle_state_error e).1.hasSubscriber = ex.hasSubscriber ∧
    (ex.handle_state_error e).1.events = ex.events ++
      (if ex.hasSubscriber then
        Event.state_failed ex.current_state e ::
          (if ex.current_state = d then []
           else [Event.transition ex.current_state d])
       else []) ∧
    (ex.handle_state_error e).2 = !(decide (ex.current_state = d)) := by
  obtain ⟨⟨src, dstX, ini, ent, df, rc, ab⟩, fb0, hs, pn, ev⟩ := ex
  dsimp only at hfb
  subst hfb
  unfold StateMachineExecutor.handle_state_error
  by_cases hd : src = d <;> cases hs <;>
    simp [StateMachineExecutor.notify, StateMachineExecutor.reset_state,
      StateMachineExecutor.current_state, StateMachineExecutor.is_aborted,
      ExecutorContext.set_state, ExecutorContext.can_transit,
      ExecutorContext.transit, hfd, hd]

/-- The recall loop stops without popping when aborted, when `recalled` is not
set, or when the pending queue is empty. -/
theorem unary_recall_loop_stop [DecidableEq S] (M : Machine S U V E) (fuel : Nat)
    (ex : StateMachineExecutor S U V E) (out : V)
    (tr : List (StateMachineExecutor S U V E × U))
    (h : ex.is_aborted = true ∨ ex.context.recalled = false ∨ ex.pending = []) :
    unary_recall_loop M (fuel + 1) ex out tr = (.ok out, ex, tr) := by
  have hcond : (!ex.is_aborted && ex.context.recalled && !ex.pending.isEmpty) = false := by
    rcases h with h | h | h <;> simp [h]
  unfold unary_recall_loop
  rw [if_neg (by simp [hcond])]

/-- One-step unfolding of the recall loop when its guard holds, the tail of the
queue is known, and the replay visit raises: the loop re-raises. -/
theorem unary_recall_loop_succ_err [DecidableEq S] (M : Machine S U V E) (fuel : Nat)
    (ex : StateMachineExecutor S U V E) (out : V)
    (tr : List (StateMachineExecutor S U V E × U)) (a : U)
    (hcond : (!ex.is_aborted && ex.context.recalled && !ex.pending.isEmpty) = true)
    (hlast : ex.pending.getLast? = some a)
    (err : RunErr S U E) (ex1 : StateMachineExecutor S U V E)
    (es : List (StateMachineExecutor S U V E × U))
    (hv : unary_visit M (recall_pop ex a) a = (.error err, ex1, es)) :
    unary_recall_loop M (fuel + 1) ex out tr = (.error err, ex1, tr ++ es) := by
  unfold unary_recall_loop
  rw [if_pos hcond, hlast]
  dsimp only
  rw [hv]

/-- One-step unfolding of the recall loop when its guard holds, the tail of the
queue is known, and the replay visit succeeds: the loop continues with the new
outcome. -/
theorem unary_recall_loop_succ_ok [DecidableEq S] (M : Machine S U V E) (fuel : Nat)
    (ex : StateMachineExecutor S U V E) (out : V)
    (tr : List (StateMachineExecutor S U V E × U)) (a : U)
    (hcond : (!ex.is_aborted && ex.context.recalled && !ex.pending.isEmpty) = true)
    (hlast : ex.pending.getLast? = some a)
    (v : V) (ex1 : StateMachineExecutor S U V E)
    (es : List (StateMachineExecutor S U V E × U))
    (hv : unary_visit M (recall_pop ex a) a = (.ok v, ex1, es)) :
    unary_recall_loop M (fuel + 1) ex out tr =
      unary_recall_loop M fuel ex1 v (tr ++ es) := by
  conv_lhs => unfold unary_recall_loop
  rw [if_pos hcond, hlast]
  dsimp only
  rw [hv]

/-- One iteration of the recall loop under its guard: exactly the tail entry of
the pending queue is removed, `income_recalled` is notified and the recalled
flag is cleared before the replay visit; the replay's executor snapshot `exV`
is recorded in the trace against the popped income. -/
theorem unary_recall_loop_pop [DecidableEq S] (M : Machine S U V E) (fuel : Nat)
    (ex : StateMachineExecutor S U V E) (out : V)
    (tr : List (StateMachineExecutor S U V E × U)) (ps : List U) (a : U)
    (hab : ex.is_aborted = false) (hrc : ex.context.recalled = true)
    (hps : ex.pending = ps ++ [a]) :
    ∃ exV r ex' Δ,
      unary_recall_loop M (fuel + 1) ex out tr = (r, ex', tr ++ (exV, a) :: Δ) ∧
      exV.pending = ps ∧
      exV.context.recalled = false ∧
      exV.current_state = ex.current_state ∧
      exV.is_aborted = false ∧
      exV.hasSubscriber = ex.hasSubscriber ∧
      (ex.hasSubscriber = true →
        Event.income_recalled ex.current_state a ∈ exV.events) := by
  have hcond : (!ex.is_aborted && ex.context.recalled && !ex.pending.isEmpty) = true := by
    rw [hab, hrc, hps]
    simp
  have hlast : ex.pending.getLast? = some a := by rw [hps]; simp
  have hpop := recall_pop ex a
  have habC : (recall_pop ex a).is_aborted = false := by rw [recall_pop_aborted]; exact hab
  obtain ⟨exV, henter, hctxV, -, hpendV, hsubV, hevV⟩ := enter_state_ok (recall_pop ex a) a habC
  have hpendV2 : exV.pending = ps := by
    rw [hpendV, recall_pop_pending, hps]
    simp
  have hrcV : exV.context.recalled = false := by
    rw [hctxV]
    show (recall_pop ex a).context.recalled = false
    exact recall_pop_recalled ex a
  have hsrcV : exV.current_state = ex.current_state := by
    unfold StateMachineExecutor.current_state
    rw [hctxV]
    show (recall_pop ex a).context.source = ex.context.source
    have := recall_pop_source ex a
    unfold StateMachineExecutor.current_state at this
    exact this
  have habV : exV.is_aborted = false := by
    unfold StateMachineExecutor.is_aborted
    rw [hctxV]
    show (recall_pop ex a).context.aborted = false
    have := recall_pop_aborted ex a
    unfold StateMachineExecutor.is_aborted at this
    rw [this]
    exact hab
  have hsubV2 : exV.hasSubscriber = ex.hasSubscriber := by
    rw [hsubV, recall_pop_hasSubscriber]
  have hevV2 : ex.hasSubscriber = true →
      Event.income_recalled ex.current_state a ∈ exV.events := by
    intro hs
    apply events_mono_mem hevV
    rw [recall_pop_events_true ex a hs]
    simp
  cases hres : (M exV.current_state a).result with
  | error e =>
    have hv2 := unary_visit_err M (recall_pop ex a) exV a e henter hres
    have hstep := unary_recall_loop_succ_err M fuel ex out tr a hcond hlast
      (.raised e) _ _ hv2
    exact ⟨exV, _, _, [], hstep, hpendV2, hrcV, hsrcV, habV, hsubV2, hevV2⟩
  | ok v =>
    have hv2 := unary_visit_okv M (recall_pop ex a) exV a v henter hres
    have hstep := unary_recall_loop_succ_ok M fuel ex out tr a hcond hlast
      v _ _ hv2
    rcases hloop : unary_recall_loop M fuel
      ((({ exV with context := applyActions exV.context (M exV.current_state a).actions
        }).handle_outcome a v).leave_state a) v (tr ++ [(exV, a)]) with ⟨r, ex', tr2⟩
    obtain ⟨Δ, hΔ⟩ := unary_recall_loop_trace M fuel
      ((({ exV with context := applyActions exV.context (M exV.current_state a).actions
        }).handle_outcome a v).leave_state a) v (tr ++ [(exV, a)])
    rw [hloop] at hΔ
    simp only at hΔ
    refine ⟨exV, r, ex', Δ, ?_, hpendV2, hrcV, hsrcV, habV, hsubV2, hevV2⟩
    rw [hstep, hloop, hΔ]
    simp

/-! Claim theorems. -/

/-- C10: within one handler turn, every `set_state(s, final=f)` call overwrites
the pending destination (only the last call's destination takes effect), resets
the recalled flag to False and sets the aborted flag to exactly `f` — so a
`set_state` with `final=False` cancels any `abort()` or `recall()` requested
earlier in the same turn, and a turn consisting only of `set_state` calls is
equivalent to its last call alone. -/
theorem C10_set_state_last_wins {S : Type} (c : ExecutorContext S)
    (earlier : List (CtxAction S)) (s : S) (f : Bool) (calls : List (S × Bool)) :
    (applyActions c (earlier ++ [CtxAction.set_state s f])).destination = some s ∧
    (applyActions c (earlier ++ [CtxAction.set_state s f])).recalled = false ∧
    (applyActions c (earlier ++ [CtxAction.set_state s f])).aborted = f ∧
    applyActions c ((calls.map fun p => CtxAction.set_state p.1 p.2) ++
      [CtxAction.set_state s f]) = c.set_state s f := by
  refine ⟨?_, ?_, ?_, set_state_chain c calls s f⟩ <;>
    rw [applyActions_append] <;> rfl

/-- C5: after a successful handler invocation the transition list is evaluated
in declaration order and exactly the first transition whose `perform` returns
true fires (Constant always; Conditional when its predicate holds or an
`otherwise` exists; key-mapped when the key maps to a destination or a default
exists); the resulting context is that single transition's `perform` applied to
the incoming context — later transitions are not performed — and if none fires
the context (hence the machine's state) is unchanged.  Holds for both
`TransitionExecutor.execute` and the transition loop of
`MethodCallState.handle`. -/
theorem C5_first_match_wins {K T US SS : Type} (ts : List (STransition K US SS))
    (income : US) (c : ExecutorContext SS) (finalOf : SS → Bool)
    (ms : List (MCTransition K T SS)) (container : T) (c2 : ExecutorContext SS) :
    (executeTransitions ts income c).1 = ts.find? (fun t => t.firesSpec income) ∧
    (executeTransitions ts income c).2 =
      (match ts.find? (fun t => t.firesSpec income) with
        | some t => (t.perform income c).2
        | none => c) ∧
    methodCallTransit finalOf ms container c2 =
      (match ms.find? (fun t => t.firesSpec container) with
        | some t => (t.perform finalOf container c2).2
        | none => c2) :=
  ⟨(executeTransitions_spec ts income c).1, (executeTransitions_spec ts income c).2,
   methodCallTransit_spec finalOf ms container c2⟩

/-- C2 (code bug): `IterableStateMachine.run` drives its executor through the
attributes `start_state`, `finish_state`, `is_finished` and `state`, none of
which `StateMachineExecutor` defines (its API is `visit_state`/`enter_state`/
`leave_state`/`is_aborted`/`current_state`), so running any iterable shell
raises AttributeError on the first income instead of performing the documented
loop. -/
theorem C2_iterable_calls_missing_executor_methods :
    "start_state" ∈ iterableRunExecutorAttributeNames ∧
    "start_state" ∉ executorAttributeNames ∧
    "finish_state" ∈ iterableRunExecutorAttributeNames ∧
    "finish_state" ∉ executorAttributeNames ∧
    "is_finished" ∈ iterableRunExecutorAttributeNames ∧
    "is_finished" ∉ executorAttributeNames ∧
    "state" ∈ iterableRunExecutorAttributeNames ∧
    "state" ∉ executorAttributeNames := by
  decide

/-- C6: once `is_aborted` is true, `enter_state` (hence `visit_state`) fails
with AbortedStateReachedError carrying the current state and the income, the
executor is left unchanged (so every subsequent visit fails the same way), and
no handler is invoked (the invocation trace is empty). -/
theorem C6_aborted_rejects_visits [DecidableEq S] (M : Machine S U V E) (fuel : Nat)
    (ex : StateMachineExecutor S U V E) (u : U) (h : ex.is_aborted = true) :
    ex.enter_state u = .error (ex.current_state, u) ∧
    unary_run M fuel ex u = (.error (.aborted ex.current_state u), ex, []) := by
  refine ⟨enter_state_aborted ex u h, ?_⟩
  unfold unary_run
  rw [unary_visit_aborted M ex u h]

/-- Witness for C6 at a concrete aborted executor. -/
theorem C6_aborted_rejects_visits_witness :
    exAborted.is_aborted = true ∧
    (exAborted.enter_state 0 = .error (exAborted.current_state, 0) ∧
      unary_run constMachine 3 exAborted 0 =
        (.error (.aborted exAborted.current_state 0), exAborted, [])) :=
  ⟨rfl, C6_aborted_rejects_visits constMachine 3 exAborted 0 rfl⟩

/-- C7: the recall loop runs only while the machine is not aborted, the
recalled flag is set, and the pending queue is non-empty (otherwise it stops
immediately, removing nothing); each iteration removes exactly the tail entry
of the queue (most recently deferred first, stack order), notifies
`income_recalled` and clears the recalled flag before re-running the visit
cycle for that entry. -/
theorem C7_recall_dequeues_tail [DecidableEq S] (M : Machine S U V E) (fuel : Nat)
    (ex : StateMachineExecutor S U V E) (out : V)
    (tr : List (StateMachineExecutor S U V E × U)) :
    (ex.is_aborted = true ∨ ex.context.recalled = false ∨ ex.pending = [] →
      unary_recall_loop M (fuel + 1) ex out tr = (.ok out, ex, tr)) ∧
    (∀ ps a, ex.is_aborted = false → ex.context.recalled = true →
      ex.pending = ps ++ [a] →
      ∃ exV r ex' Δ,
        unary_recall_loop M (fuel + 1) ex out tr = (r, ex', tr ++ (exV, a) :: Δ) ∧
        exV.pending = ps ∧
        exV.context.recalled = false ∧
        exV.current_state = ex.current_state ∧
        (ex.hasSubscriber = true →
          Event.income_recalled ex.current_state a ∈ exV.events)) :=
  ⟨fun h => unary_recall_loop_stop M fuel ex out tr h,
   fun ps a hab hrc hps => by
    obtain ⟨exV, r, ex', Δ, h1, h2, h3, h4, -, -, h7⟩ :=
      unary_recall_loop_pop M fuel ex out tr ps a hab hrc hps
    exact ⟨exV, r, ex', Δ, h1, h2, h3, h4, h7⟩⟩

/-- Witness for C7 at a concrete executor with two pending incomes. -/
theorem C7_recall_dequeues_tail_witness :
    ∃ exV r ex' Δ,
      unary_recall_loop constMachine 3 exRecallPending 0 [] =
        (r, ex', [] ++ (exV, 4) :: Δ) ∧
      exV.pending = [3] ∧
      exV.context.recalled = false ∧
      exV.current_state = exRecallPending.current_state ∧
      (exRecallPending.hasSubscriber = true →
        Event.income_recalled exRecallPending.current_state 4 ∈ exV.events) :=
  (C7_recall_dequeues_tail constMachine 2 exRecallPending 0 []).2 [3] 4 rfl rfl rfl

/-- C8: leave-processing after a successful handler return performs, in order:
(1) when the deferred flag is set, append the income to the pending queue,
notify `income_deferred` and clear the flag; (2) when a pending destination
differs from the source, notify `state_left`; (3) perform the transition —
swap source to destination, clear destination and entered, notify
`transition(old, new)`; (4) when the abort flag is set, notify `final` with the
(possibly new) current state.  When no transition is pending, steps (2)-(3) do
nothing and the context keeps its destination cell. -/
theorem C8_leave_processing [DecidableEq S] (ex : StateMachineExecutor S U V E)
    (income : U) :
    (ex.context.can_transit = false →
      ex.leave_state income =
        { context := { ex.context with deferred := false },
          fallback := ex.fallback,
          hasSubscriber := ex.hasSubscriber,
          pending := if ex.context.deferred then ex.pending ++ [income] else ex.pending,
          events := ex.events ++
            (if ex.hasSubscriber then
              (if ex.context.deferred then
                [Event.income_deferred ex.current_state income] else []) ++
              (if ex.context.aborted then [Event.final ex.current_state] else [])
            else []) }) ∧
    (∀ d, ex.context.destination = some d → ex.context.source ≠ d →
      ex.leave_state income =
        { context := { ex.context with
              source := d
              destination := none
              entered := false
              deferred := false },
          fallback := ex.fallback,
          hasSubscriber := ex.hasSubscriber,
          pending := if ex.context.deferred then ex.pending ++ [income] else ex.pending,
          events := ex.events ++
            (if ex.hasSubscriber then
              (if ex.context.deferred then
                [Event.income_deferred ex.current_state income] else []) ++
              [Event.state_left ex.current_state income,
               Event.transition ex.current_state d] ++
              (if ex.context.aborted then [Event.final d] else [])
            else []) }) :=
  ⟨fun h => leave_state_spec_stay ex income h,
   fun d h hd => leave_state_spec_go ex income d h hd⟩

/-- Witness for C8 at a concrete executor with a deferred income and a pending
destination. -/
theorem C8_leave_processing_witness :
    exLeaveGo.leave_state 9 =
      { context := { exLeaveGo.context with
            source := 1
            destination := none
            entered := false
            deferred := false },
        fallback := exLeaveGo.fallback,
        hasSubscriber := exLeaveGo.hasSubscriber,
        pending := if exLeaveGo.context.deferred then exLeaveGo.pending ++ [9]
          else exLeaveGo.pending,
        events := exLeaveGo.events ++
          (if exLeaveGo.hasSubscriber then
            (if exLeaveGo.context.deferred then
              [Event.income_deferred exLeaveGo.current_state 9] else []) ++
            [Event.state_left exLeaveGo.current_state 9,
             Event.transition exLeaveGo.current_state 1] ++
            (if exLeaveGo.context.aborted then [Event.final 1] else [])
          else []) } :=
  (C8_leave_processing exLeaveGo 9).2 1 rfl (by decide)

/-- C4 counterexample: the handler at state 0 raises and the fallback resolves
to state 1, so a transition occurs — yet the event log shows no `state_left`
notification (error dispatch runs only `reset_state`, not the full
leave-processing the claim describes). -/
theorem C4_counterexample :
    (unary_run raiseMachine 3 exFallback 7).2.1.events =
      [Event.initial 0, Event.state_entered 0 7, Event.state_failed 0 (),
       Event.transition 0 1] ∧
    Event.state_left 0 7 ∉ (unary_run raiseMachine 3 exFallback 7).2.1.events ∧
    (unary_run raiseMachine 3 exFallback 7).2.1.current_state = 1 := by
  have h : (unary_run raiseMachine 3 exFallback 7).2.1.events =
      [Event.initial 0, Event.state_entered 0 7, Event.state_failed 0 (),
       Event.transition 0 1] := rfl
  refine ⟨h, ?_, rfl⟩
  rw [h]
  decide

/-- C4 (amended): on a handler exception the executor notifies `state_failed`;
with no resolver, or a resolver yielding no destination, it reports failure so
the error is rethrown unchanged; when the resolver yields destination d, it
behaves as if `set_state(d)` had been called followed by `reset_state` alone —
the machine ends in state d and `transition` is notified when d differs from
the source — but the full leave-processing does NOT run: the pending queue and
the deferred flag are untouched and no `state_left`, `income_deferred` or
`final` notification is emitted. -/
theorem C4_error_dispatch [DecidableEq S] (ex : StateMachineExecutor S U V E) (e : E) :
    (ex.fallback = none →
      ex.handle_state_error e =
        (ex.notify (.state_failed ex.current_state e), false)) ∧
    (∀ fb, ex.fallback = some fb → fb e = none →
      ex.handle_state_error e =
        (ex.notify (.state_failed ex.current_state e), false)) ∧
    (∀ fb d, ex.fallback = some fb → fb e = some d →
      (ex.handle_state_error e).1.current_state = d ∧
      (ex.handle_state_error e).1.context.aborted = false ∧
      (ex.handle_state_error e).1.context.recalled = false ∧
      (ex.handle_state_error e).1.context.deferred = ex.context.deferred ∧
      (ex.handle_state_error e).1.pending = ex.pending ∧
      (ex.handle_state_error e).1.events = ex.events ++
        (if ex.hasSubscriber then
          Event.state_failed ex.current_state e ::
            (if ex.current_state = d then []
             else [Event.transition ex.current_state d])
        else []) ∧
      (ex.handle_state_error e).2 = !(decide (ex.current_state = d))) := by
  refine ⟨fun h => hse_no_resolver ex e h,
    fun fb hfb hfd => hse_unresolved ex e fb hfb hfd,
    fun fb d hfb hfd => ?_⟩
  obtain ⟨h1, h2, h3, h4, h5, -, h7, h8⟩ := hse_resolved ex e fb d hfb hfd
  exact ⟨h1, h2, h3, h4, h5, h7, h8⟩

/-- Witness for C4 at the concrete fallback machine. -/
theorem C4_error_dispatch_witness :
    (exFallback.handle_state_error ()).1.current_state = 1 ∧
    (exFallback.handle_state_error ()).1.context.aborted = false ∧
    (exFallback.handle_state_error ()).1.context.recalled = false ∧
    (exFallback.handle_state_error ()).1.context.deferred =
      exFallback.context.deferred ∧
    (exFallback.handle_state_error ()).1.pending = exFallback.pending ∧
    (exFallback.handle_state_error ()).1.events = exFallback.events ++
      (if exFallback.hasSubscriber then
        Event.state_failed exFallback.current_state () ::
          (if exFallback.current_state = 1 then []
           else [Event.transition exFallback.current_state 1])
      else []) ∧
    (exFallback.handle_state_error ()).2 = !(decide (exFallback.current_state = 1)) :=
  (C4_error_dispatch exFallback ()).2.2 fbResolver 1 rfl rfl

/-- C1 counterexample: the state-0 handler raises `()`, the fallback maps it to
state 1, yet `run` raises (returns the re-raised exception) while the machine
ends in the fallback state — refuting "run does not raise". -/
theorem C1_counterexample :
    (unary_run raiseMachine 3 exFallback 7).1 = .error (.raised ()) ∧
    (unary_run raiseMachine 3 exFallback 7).2.1.current_state = 1 :=
  ⟨rfl, rfl⟩

/-- C1 (amended/corrected): when the handler raises e and the configured
fallback resolver maps e to destination d, `run` RAISES e to its caller
(`visit_state` re-raises unconditionally after `handle_state_error`), but the
machine does transition: afterwards the current state equals d, and the handler
was invoked exactly once. -/
theorem C1_fallback_state_reached_but_raises [DecidableEq S] (M : Machine S U V E)
    (fuel : Nat) (ex : StateMachineExecutor S U V E) (u : U) (e : E)
    (fb : E → Option S) (d : S)
    (hab : ex.is_aborted = false)
    (hfb : ex.fallback = some fb)
    (hres : (M ex.current_state u).result = .error e)
    (hfd : fb e = some d) :
    ∃ exV ex', unary_run M fuel ex u = (.error (.raised e), ex', [(exV, u)]) ∧
      ex'.current_state = d := by
  obtain ⟨ex1, henter, hctx, hfb1, -, -, -⟩ := enter_state_ok ex u hab
  have hsrc1 : ex1.current_state = ex.current_state := by
    unfold StateMachineExecutor.current_state
    rw [hctx]
  have hres1 : (M ex1.current_state u).result = .error e := by
    rw [hsrc1]
    exact hres
  have hv := unary_visit_err M ex ex1 u e henter hres1
  have hrun : unary_run M fuel ex u =
      (.error (.raised e),
       (({ ex1 with context := applyActions ex1.context (M ex1.current_state u).actions
         }).handle_state_error e).1, [(ex1, u)]) := by
    unfold unary_run
    rw [hv]
  refine ⟨ex1, _, hrun, ?_⟩
  have hfb2 : ({ ex1 with
      context := applyActions ex1.context (M ex1.current_state u).actions } :
      StateMachineExecutor S U V E).fallback = some fb := by
    show ex1.fallback = some fb
    rw [hfb1, hfb]
  exact (hse_resolved _ e fb d hfb2 hfd).1

/-- Witness for C1 (amended) at the concrete raising machine. -/
theorem C1_fallback_state_reached_but_raises_witness :
    ∃ exV ex', unary_run raiseMachine 3 exFallback 7 =
      (.error (.raised ()), ex', [(exV, 7)]) ∧ ex'.current_state = 1 :=
  C1_fallback_state_reached_but_raises raiseMachine 3 exFallback 7 ()
    fbResolver 1 rfl rfl rfl rfl

/-- C3 counterexample: the triggering income's handler produces outcome 10 and
requests a transition plus a recall; the recalled income's handler produces 20;
`run` returns 20, not the triggering income's outcome 10 — the `outcome`
variable is reassigned in the recall loop. -/
theorem C3_counterexample :
    (recallMachine 0 7).result = .ok 10 ∧
    (unary_run recallMachine 3 exRecall 7).1 = .ok 20 ∧
    (10 : Nat) ≠ 20 :=
  ⟨rfl, rfl, by decide⟩

/-- C3 (amended/corrected): whenever `run` returns normally, the returned value
is the outcome of the LAST income handled during the call (so the triggering
income's outcome exactly when no recall followed); the first handled income is
the triggering one; and every successfully handled income — recalled ones
included — has its outcome reported via `handle_outcome`. -/
theorem C3_run_returns_last_outcome [DecidableEq S] (M : Machine S U V E)
    (fuel : Nat) (ex ex' : StateMachineExecutor S U V E) (u : U) (v : V)
    (tr : List (StateMachineExecutor S U V E × U))
    (h : unary_run M fuel ex u = (.ok v, ex', tr)) :
    (∃ exV rest, tr = (exV, u) :: rest) ∧
    (∃ pre p, tr = pre ++ [p] ∧ (M (p.1.current_state) p.2).result = .ok v) ∧
    (ex.hasSubscriber = true →
      ∀ p ∈ tr, ∀ w, (M (p.1.current_state) p.2).result = .ok w →
        Event.state_outcome p.1.current_state p.2 w ∈ ex'.events) := by
  unfold unary_run at h
  rcases hv : unary_visit M ex u with ⟨r0, ex1, es⟩
  rw [hv] at h
  cases r0 with
  | error err => simp at h
  | ok w =>
    dsimp only at h
    obtain ⟨exV, hes, hresV⟩ := unary_visit_ok_inv M ex ex1 u w es hv
    subst hes
    refine ⟨?_, ?_, ?_⟩
    · obtain ⟨Δ, hΔ⟩ := unary_recall_loop_trace M fuel ex1 w [(exV, u)]
      rw [h] at hΔ
      simp only at hΔ
      exact ⟨exV, Δ, by simpa using hΔ⟩
    · rcases unary_recall_loop_last M fuel ex1 w [(exV, u)] v ex' tr h with
        ⟨hvw, htr⟩ | hlast
      · subst hvw
        exact ⟨[], (exV, u), by simp [htr], hresV⟩
      · exact hlast
    · intro hs
      have hs1 : ex1.hasSubscriber = true := by
        have hpres := unary_visit_hasSubscriber M ex u
        rw [hv] at hpres
        simp only at hpres
        rw [hpres, hs]
      have hrep0 := unary_visit_reported M ex ex1 u (.ok w) [(exV, u)] hs hv
      exact unary_recall_loop_reported M fuel ex1 w [(exV, u)] (.ok v) ex' tr
        hs1 hrep0 h

/-- Witness for C3 (amended) at the concrete recall machine. -/
theorem C3_run_returns_last_outcome_witness :
    (∃ exV rest, (unary_run recallMachine 3 exRecall 7).2.2 = (exV, 7) :: rest) ∧
    (∃ pre p, (unary_run recallMachine 3 exRecall 7).2.2 = pre ++ [p] ∧
      (recallMachine (p.1.current_state) p.2).result = .ok 20) ∧
    (exRecall.hasSubscriber = true →
      ∀ p ∈ (unary_run recallMachine 3 exRecall 7).2.2, ∀ w,
        (recallMachine (p.1.current_state) p.2).result = .ok w →
        Event.state_outcome p.1.current_state p.2 w ∈
          (unary_run recallMachine 3 exRecall 7).2.1.events) :=
  C3_run_returns_last_outcome recallMachine 3 exRecall
    (unary_run recallMachine 3 exRecall 7).2.1 7 20
    (unary_run recallMachine 3 exRecall 7).2.2 rfl

/-- C9: if income A was deferred earlier (it sits in the pending queue) and the
current turn's handler transitions to a new state s2 and calls `recall()`, then
A is replayed (enter → handle → leave) against s2 — the new current state — not
against the state that was active when A was deferred: the second handler
invocation in the trace is (s2, A). -/
theorem C9_recall_replays_against_new_state [DecidableEq S] (M : Machine S U V E)
    (fuel : Nat) (fb : Option (E → Option S)) (hs : Bool)
    (ev : List (Event S U V E)) (ps : List U) (A u : U) (s0 s2 : S) (v : V)
    (hM : M s0 u = ⟨[CtxAction.set_state s2 false, CtxAction.recall], .ok v⟩)
    (hne : s0 ≠ s2) :
    ∃ ex1 ex2 r ex' Δ,
      unary_run M (fuel + 1)
        { context := ExecutorContext.init s0, fallback := fb, hasSubscriber := hs,
          pending := ps ++ [A], events := ev } u =
        (r, ex', (ex1, u) :: (ex2, A) :: Δ) ∧
      ex1.current_state = s0 ∧ ex2.current_state = s2 := by
  set ex0 : StateMachineExecutor S U V E :=
    { context := ExecutorContext.init s0, fallback := fb, hasSubscriber := hs,
      pending := ps ++ [A], events := ev } with hex0
  have hab : ex0.is_aborted = false := rfl
  obtain ⟨ex1, henter, hctx, -, hpend1, -, -⟩ := enter_state_ok ex0 u hab
  have hsrc1 : ex1.current_state = s0 := by
    unfold StateMachineExecutor.current_state
    rw [hctx]
    rfl
  have hctx1 : ex1.context =
      { source := s0, destination := none, initial := false, entered := true,
        deferred := false, recalled := false, aborted := false } := by
    rw [hctx]
    rfl
  have hspec : M ex1.current_state u =
      ⟨[CtxAction.set_state s2 false, CtxAction.recall], .ok v⟩ := by
    rw [hsrc1]
    exact hM
  have hres : (M ex1.current_state u).result = .ok v := by rw [hspec]
  have hv := unary_visit_okv M ex0 ex1 u v henter hres
  set ex2 : StateMachineExecutor S U V E :=
    { ex1 with context := applyActions ex1.context (M ex1.current_state u).actions }
    with hex2
  have hctx2 : ex2.context =
      { source := s0, destination := some s2, initial := false, entered := true,
        deferred := false, recalled := true, aborted := false } := by
    rw [hex2]
    show applyActions ex1.context (M ex1.current_state u).actions = _
    rw [hspec, hctx1]
    rfl
  set exH : StateMachineExecutor S U V E := ex2.handle_outcome u v with hexH
  have hctxH : exH.context =
      { source := s0, destination := some s2, initial := false, entered := true,
        deferred := false, recalled := true, aborted := false } := by
    rw [hexH, handle_outcome_context, hctx2]
  have hpendH : exH.pending = ps ++ [A] := by
    rw [hexH, handle_outcome_pending, hex2]
    show ex1.pending = ps ++ [A]
    rw [hpend1]
  have hgo := leave_state_spec_go exH u s2 (by rw [hctxH]) (by rw [hctxH]; exact hne)
  set exL : StateMachineExecutor S U V E := exH.leave_state u with hexL
  have hLsrc : exL.current_state = s2 := by
    unfold StateMachineExecutor.current_state
    rw [hgo]
  have hLrc : exL.context.recalled = true := by
    rw [hgo]
    show ({ exH.context with
        source := s2
        destination := none
        entered := false
        deferred := false } : ExecutorContext S).recalled = true
    rw [hctxH]
  have hLab : exL.is_aborted = false := by
    unfold StateMachineExecutor.is_aborted
    rw [hgo]
    show ({ exH.context with
        source := s2
        destination := none
        entered := false
        deferred := false } : ExecutorContext S).aborted = false
    rw [hctxH]
  have hLpend : exL.pending = ps ++ [A] := by
    rw [hgo]
    show (if exH.context.deferred = true then exH.pending ++ [u] else exH.pending) =
      ps ++ [A]
    rw [hctxH]
    simpa using hpendH
  have hrun : unary_run M (fuel + 1) ex0 u =
      unary_recall_loop M (fuel + 1) exL v [(ex1, u)] := by
    unfold unary_run
    rw [hv]
  obtain ⟨exV, r, ex', Δ, hloop, -, -, hVsrc, -, -, -⟩ :=
    unary_recall_loop_pop M fuel exL v [(ex1, u)] ps A hLab hLrc hLpend
  refine ⟨ex1, exV, r, ex', Δ, ?_, hsrc1, ?_⟩
  · rw [hrun, hloop]
    rfl
  · rw [hVsrc, hLsrc]

/-- Witness for C9 at the concrete recall machine with a previously deferred
income 5. -/
theorem C9_recall_replays_against_new_state_witness :
    ∃ ex1 ex2 r ex' Δ,
      unary_run recallMachine 3
        { context := ExecutorContext.init 0, fallback := none, hasSubscriber := true,
          pending := [] ++ [5], events := [] } 7 =
        (r, ex', (ex1, 7) :: (ex2, 5) :: Δ) ∧
      ex1.current_state = 0 ∧ ex2.current_state = 1 :=
  C9_recall_replays_against_new_state recallMachine 2 none true [] [] 5 7 0 1 10
    rfl (by decide)

end Statomata
